import Mathlib

namespace Bridge

/-!
# Verification of the liveness-detection bridge server core

Shallow embedding of `src/bridge_server.py` (the ingestion-and-chunking
pipeline): the payload extractor, the two media buffers with their
lock-protected append/drain protocol, the write-once video stream header,
and the periodic `process_buffers` tick (admission checks, fps estimate,
temp-file contents, post-transcoder validation and publication).

Conventions of the embedding:
* bytes are `Nat` values (with `< 256` hypotheses where base64 needs them),
  byte strings are `List Nat`;
* Python `float` timestamps are modelled as `ℚ`;
* every buffer access in the source holds `buffer_lock`, so a concurrent
  execution is equivalent to a sequence of atomic operations; models
  therefore quantify over arbitrary operation/event sequences;
* the external transcoder (FFmpeg) and the filesystem are modelled by the
  observable data the code branches on: exit code, output existence and
  output size.
-/

/-- A buffered media packet, `{"data": payload, "time": time.time()}`
(bridge_server.py lines 28–30, 82, 111). -/
structure Packet where
  data : List Nat
  time : ℚ
  deriving Repr, DecidableEq

/-! ## MediaBuffer append/drain protocol (bridge_server.py 81–82, 137–145)

`append` runs `video_buffer.append({...})` under `buffer_lock`; `drain` is
the lock-protected block `current = buffer[:]; buffer.clear()` of
`process_buffers`.  Each operation is atomic (the lock is held for its whole
duration), so any concurrent interleaving of receivers and the scheduler is
one sequence of `BufOp`s. -/

/-- One atomic operation on a media buffer. -/
inductive BufOp where
  | append (p : Packet)
  | drain
  deriving Repr, DecidableEq

/-- Execute a sequence of buffer operations starting from buffer `buf`.
Returns the final live buffer and the list of drained batches in order.
`append p` models line 82/111 (`buffer.append(packet)` under the lock);
`drain` models lines 137–145 (`current = buffer[:]; buffer.clear()` under
the lock; when the buffer is empty the copy is skipped and the batch is
empty, which coincides with copying). -/
def execBufOps : List BufOp → List Packet → List Packet × List (List Packet)
  | [], buf => (buf, [])
  | BufOp.append p :: rest, buf => execBufOps rest (buf ++ [p])
  | BufOp.drain :: rest, buf =>
      let r := execBufOps rest []
      (r.1, buf :: r.2)

/-- The packets appended by a sequence of operations, in arrival order. -/
def appendedPackets : List BufOp → List Packet
  | [] => []
  | BufOp.append p :: rest => p :: appendedPackets rest
  | BufOp.drain :: rest => appendedPackets rest

/-! ## Base64 (Python `base64.b64decode` / `b64encode`, used at
bridge_server.py lines 45, 50, 53)

Standard base64 alphabet; byte strings are lists of `Nat < 256`. -/

/-- The standard base64 alphabet. -/
def b64chars : List Char :=
  "ABCDEFGHIJKLMNOPQRSTUVWXYZabcdefghijklmnopqrstuvwxyz0123456789+/".toList

/-- Alphabet character of a 6-bit value. -/
def encChar (v : Nat) : Char := b64chars.getD v 'A'

/-- Position of a character in the base64 alphabet, `none` if absent. -/
def b64index (c : Char) : Option Nat := b64chars.findIdx? (fun d => d = c)

/-- Python `base64.b64encode`: 3 input bytes become 4 alphabet characters; a final
group of 1 or 2 bytes is padded with `=`. -/
def b64encode : List Nat → List Char
  | [] => []
  | [a] => [encChar (a / 4), encChar (a % 4 * 16), '=', '=']
  | [a, b] => [encChar (a / 4), encChar (a % 4 * 16 + b / 16), encChar (b % 16 * 4), '=']
  | a :: b :: c :: rest =>
      encChar (a / 4) :: encChar (a % 4 * 16 + b / 16) :: encChar (b % 16 * 4 + c / 64)
        :: encChar (c % 64) :: b64encode rest

/-- Group-wise base64 decoding of a 4-character-aligned string, with `=`
padding allowed only in the final group (as `binascii` enforces for
canonical input).  Any other shape is a decode error (`none`). -/
def b64decodeGroups : List Char → Option (List Nat)
  | [] => some []
  | c1 :: c2 :: c3 :: c4 :: rest =>
      if c3 = '=' then
        if c4 = '=' && rest.isEmpty then
          match b64index c1, b64index c2 with
          | some v1, some v2 => some [v1 * 4 + v2 / 16]
          | _, _ => none
        else none
      else if c4 = '=' then
        if rest.isEmpty then
          match b64index c1, b64index c2, b64index c3 with
          | some v1, some v2, some v3 =>
              some [v1 * 4 + v2 / 16, v2 % 16 * 16 + v3 / 4]
          | _, _, _ => none
        else none
      else
        match b64index c1, b64index c2, b64index c3, b64index c4, b64decodeGroups rest with
        | some v1, some v2, some v3, some v4, some tl =>
            some ((v1 * 4 + v2 / 16) :: (v2 % 16 * 16 + v3 / 4) :: (v3 % 4 * 64 + v4) :: tl)
        | _, _, _, _, _ => none
  | _ => none

/-- Python `base64.b64decode` on a `str`: the string must be pure ASCII
(otherwise `ValueError`); characters outside the alphabet and `=` are
discarded before decoding (the documented non-validating behaviour). -/
def b64decodePy (s : List Char) : Option (List Nat) :=
  if s.all (fun c => c.toNat < 128) then
    b64decodeGroups (s.filter (fun c => (b64index c).isSome || c = '='))
  else none

/-- Induction on byte strings in base64 groups of three. -/
def threeStepInd {motive : List Nat → Prop} (h0 : motive [])
    (h1 : ∀ a, motive [a]) (h2 : ∀ a b, motive [a, b])
    (h3 : ∀ a b c rest, motive rest → motive (a :: b :: c :: rest)) :
    ∀ l, motive l
  | [] => h0
  | [a] => h1 a
  | [a, b] => h2 a b
  | a :: b :: c :: rest => h3 a b c rest (threeStepInd h0 h1 h2 h3 rest)

/-! ## JSON documents and `extract_payload` (bridge_server.py 39–56)

`extract_payload` receives the text of a frame and runs `json.loads` on it;
the embedding starts from the parsed document (a failing parse is caught by
the outer `except Exception` and yields "no payload", which no claim
exercises on malformed text).  Python-level exceptions are made explicit:
`getSub` models `x[k]` (KeyError on a missing dict key, TypeError on a
non-dict), `pyIn` models `k in x` (TypeError on non-container). -/

/-- A parsed JSON document, as produced by `json.loads`. -/
inductive Json where
  | null
  | bool (b : Bool)
  | num (q : ℚ)
  | str (s : String)
  | arr (xs : List Json)
  | obj (kvs : List (String × Json))

/-- Python subscript `x[k]` with a string key: dict lookup (KeyError when
missing), TypeError on any non-dict value.  Both exception kinds appear to
callers as `.error`. -/
def getSub (j : Json) (k : String) : Except Unit Json :=
  match j with
  | .obj kvs =>
      match kvs.lookup k with
      | some v => .ok v
      | none => .error ()
  | _ => .error ()

/-- Predicate `listStartsWith pat s` : `pat` is a prefix of `s`. -/
def listStartsWith : List Char → List Char → Bool
  | [], _ => true
  | _ :: _, [] => false
  | a :: as, b :: bs => a = b && listStartsWith as bs

/-- Predicate `containsSub s pat` : `pat` occurs as a contiguous substring of `s`. -/
def containsSub : List Char → List Char → Bool
  | s@([]), pat => listStartsWith pat s
  | s@(_ :: t), pat => listStartsWith pat s || containsSub t pat

/-- Python `k in x` for a string `k`: key test on a dict, element equality
on a list, substring test on a string, TypeError otherwise. -/
def pyIn (k : String) (j : Json) : Except Unit Bool :=
  match j with
  | .obj kvs => .ok (kvs.any (fun kv => kv.1 = k))
  | .arr xs => .ok (xs.any (fun x => match x with | .str s => s = k | _ => false))
  | .str s => .ok (containsSub s.toList k.toList)
  | _ => .error ()

/-- Result of the inner `try` of `extract_payload` (lines 44–47). -/
inductive Attempt where
  | ok (bs : List Nat)
  | fall
  | err

/-- Lines 44–47: `return base64.b64decode(data["data"]["data"]["buffer"])`
with `except (KeyError, TypeError): pass`.  A missing key or non-dict access
raises KeyError/TypeError and falls through (`.fall`); `b64decode` of a
non-string raises TypeError and also falls through; a string that fails to
decode raises `binascii.Error`, which the inner handler does not catch
(`.err`, swallowed only by the outer `except Exception`). -/
def tryNested (data : Json) : Attempt :=
  match getSub data "data" with
  | .error _ => .fall
  | .ok j1 =>
    match getSub j1 "data" with
    | .error _ => .fall
    | .ok j2 =>
      match getSub j2 "buffer" with
      | .error _ => .fall
      | .ok j3 =>
        match j3 with
        | .str s =>
          match b64decodePy s.toList with
          | some bs => .ok bs
          | none => .err
        | _ => .fall

/-- Lines 52–53: `if "payload" in data and isinstance(data["payload"], str):
return base64.b64decode(data["payload"])`, then the final `return None`.
Any raised exception reaches the outer `except Exception` and yields
`none`. -/
def tryPayloadField (data : Json) : Option (List Nat) :=
  match pyIn "payload" data with
  | .error _ => none
  | .ok false => none
  | .ok true =>
    match getSub data "payload" with
    | .error _ => none
    | .ok (.str s) =>
      match b64decodePy s.toList with
      | some bs => some bs
      | none => none
    | .ok _ => none

/-- Function `extract_payload` (lines 39–56) on a parsed document: attempt the nested
path `data["data"]["data"]["buffer"]`, then top-level `"data"` if it is a
string, then `"payload"` if it is a string; any uncaught exception is
swallowed by the outer handler into `none`. -/
def extract_payload (data : Json) : Option (List Nat) :=
  match tryNested data with
  | .ok bs => some bs
  | .err => none
  | .fall =>
    match pyIn "data" data with
    | .error _ => none
    | .ok false => tryPayloadField data
    | .ok true =>
      match getSub data "data" with
      | .error _ => none
      | .ok (.str s) =>
        match b64decodePy s.toList with
        | some bs => some bs
        | none => none
      | .ok _ => tryPayloadField data

/-- Wire shape (a): `{"data": {"data": {"buffer": base64(B)}}}`. -/
def shapeA (B : List Nat) : Json :=
  Json.obj [("data", Json.obj [("data", Json.obj [("buffer", Json.str ⟨b64encode B⟩)])])]

/-- Wire shape (b): `{"data": base64(B)}`. -/
def shapeB (B : List Nat) : Json := Json.obj [("data", Json.str ⟨b64encode B⟩)]

/-- Wire shape (c): `{"payload": base64(B)}`. -/
def shapeC (B : List Nat) : Json := Json.obj [("payload", Json.str ⟨b64encode B⟩)]

/-! ## The scheduler tick (`process_buffers`, bridge_server.py 122–270) -/

/-- Round half to even, Python's `round` tie-breaking rule, on `ℚ`.
(Python rounds the binary `float`; the embedding works on exact
rationals.) -/
def roundHalfEven (q : ℚ) : ℤ :=
  if q - ⌊q⌋ < 1 / 2 then ⌊q⌋
  else if q - ⌊q⌋ > 1 / 2 then ⌊q⌋ + 1
  else if ⌊q⌋ % 2 = 0 then ⌊q⌋ else ⌊q⌋ + 1

/-- Python `round(x, 2)` (line 169). -/
def round2 (q : ℚ) : ℚ := (roundHalfEven (q * 100) : ℚ) / 100

/-- What the code observes of the external FFmpeg invocation: its exit code
(line 245), whether `temp_output_path` exists afterwards (line 246), and its
size (line 247). -/
structure MuxResult where
  returncode : Int
  outputExists : Bool
  outputSize : Nat
  deriving Repr, DecidableEq

/-- Per-chunk file state after the tick finishes: is a file published at
`final_output_path`, does a file remain at `temp_output_path`, does the
FFmpeg log remain, do the temporary input files remain. -/
structure TickFiles where
  publishedFinal : Bool
  tempOutput : Bool
  logKept : Bool
  tempInputsKept : Bool
  deriving Repr, DecidableEq

/-- Lines 244–264: on exit code 0, publish `temp_output_path` to
`final_output_path` by `shutil.move` when it exists and its size strictly
exceeds 50 * 1024 bytes, otherwise remove it; in every exit-code-0 branch
the cleanup loop (lines 257–260) then removes the log and the temporary
input files.  On a non-zero exit code, remove any `temp_output_path` and
leave the log and temporary inputs in place (lines 261–264). -/
def validateAndPublish (r : MuxResult) : TickFiles :=
  if r.returncode = 0 then
    if r.outputExists then
      if 50 * 1024 < r.outputSize then
        { publishedFinal := true, tempOutput := false, logKept := false, tempInputsKept := false }
      else
        { publishedFinal := false, tempOutput := false, logKept := false, tempInputsKept := false }
    else
      { publishedFinal := false, tempOutput := false, logKept := false, tempInputsKept := false }
  else
    { publishedFinal := false, tempOutput := false, logKept := true, tempInputsKept := true }

/-- Lines 161–169: `input_fps = 30.0`; when `duration > 0.1` replace it by
`num_packets / duration`; clamp into `[1, 60]`; round to two decimals. -/
def computeFps (numPackets : Nat) (duration : ℚ) : ℚ :=
  let fps0 : ℚ := 30
  let fps1 := if duration > 1 / 10 then (numPackets : ℚ) / duration else fps0
  round2 (max (min fps1 60) 1)

/-- Time span of a drained video batch: last minus first capture timestamp
(lines 153–155). -/
def tickSpan (video : List Packet) : ℚ :=
  ((video.getLast?).map Packet.time).getD 0 - ((video.head?).map Packet.time).getD 0

/-- Result of one tick body. `skippedEmpty` is the `continue` at line 148
(no video drained), `skippedShort` the `continue` at line 159 (span below
15); both happen before any file is written, before FFmpeg is invoked and
before the counter advances.  `processed` carries the estimated fps handed
to FFmpeg, the bytes of the temporary elementary video file, the optional
bytes of the temporary audio file, the resulting file state and the new
chunk counter. -/
inductive TickOutcome where
  | skippedEmpty
  | skippedShort
  | processed (fps : ℚ) (videoFile : List Nat) (audioFile : Option (List Nat))
      (files : TickFiles) (nextCounter : Nat)
  deriving Repr, DecidableEq

/-- The body of one `process_buffers` tick after the drain (lines 147–270),
as a function of the drained batches, the stream header and the observed
FFmpeg result.  Line 190–194: the temp video file is the header (written
only when truthy; `None` and empty bytes both contribute no bytes) followed
by the drained video payloads in order.  Lines 196–201: the temp audio file
is written only when audio was drained.  The `finally` at line 269–270
advances the counter whenever the try block was entered. -/
def processTick (counter : Nat) (video audio : List Packet)
    (header : Option (List Nat)) (r : MuxResult) : TickOutcome :=
  match video with
  | [] => TickOutcome.skippedEmpty
  | v :: vs =>
    let t_end := ((v :: vs).getLast (List.cons_ne_nil v vs)).time
    let duration := t_end - v.time
    if duration < 15 then TickOutcome.skippedShort
    else
      let input_fps := computeFps (v :: vs).length duration
      let videoFile := (match header with | some h => h | none => [])
        ++ ((v :: vs).map Packet.data).flatten
      let audioFile := if audio.isEmpty then none
        else some ((audio.map Packet.data).flatten)
      TickOutcome.processed input_fps videoFile audioFile (validateAndPublish r) (counter + 1)

/-! ## Chunk file names (lines 173–186) -/

/-- Python `base_name = f"chunk_\x7btimestamp\x7d_\x7bchunk_counter\x7d"`
(line 175), the stem of the temporary input and log files. -/
def base_name (timestamp counter : Nat) : String :=
  "chunk_" ++ toString timestamp ++ "_" ++ toString counter

/-- Python `output_filename = f"live_stream_\x7btimestamp\x7d.mp4"` (line 179):
the final published name depends on the timestamp only. -/
def output_filename (timestamp : Nat) : String :=
  "live_stream_" ++ toString timestamp ++ ".mp4"

/-- Python `temp_output_filename = f".temp_\x7boutput_filename\x7d"` (line 184),
the hidden name FFmpeg writes to before the atomic rename. -/
def temp_output_filename (timestamp : Nat) : String :=
  ".temp_" ++ output_filename timestamp

/-- The directory watcher's filename filter (watcher.py 33–36): react only
to `.mp4` files whose name does not start with the hidden-file marker. -/
def watcherAccepts (name : String) : Bool :=
  listStartsWith ".mp4".toList.reverse name.toList.reverse
    && !(listStartsWith ".".toList name.toList)

/-! ## System traces: receivers and scheduler interleaved

Each receiver iteration (receive one frame, extract, append) and each
scheduler drain hold `buffer_lock` around buffer access and contain no
`await` between the header check and the append, so a concurrent run is a
sequence of these atomic steps. -/

/-- One inbound websocket frame: raw binary or text carrying JSON
(lines 70–73 and 104–107). -/
inductive Frame where
  | binary (bs : List Nat)
  | text (j : Json)

/-- Payload of a frame: binary bytes unchanged, text via
`extract_payload`. -/
def framePayload : Frame → Option (List Nat)
  | Frame.binary bs => some bs
  | Frame.text j => extract_payload j

/-- The shared mutable state of bridge_server.py: `video_header` (line 34),
the two buffers (lines 29–30) and the scheduler's `chunk_counter`
(line 127). -/
structure SysState where
  video_header : Option (List Nat)
  video_buffer : List Packet
  audio_buffer : List Packet
  chunk_counter : Nat

/-- Process start: empty buffers, no header, counter 0. -/
def initState : SysState :=
  { video_header := none, video_buffer := [], audio_buffer := [], chunk_counter := 0 }

/-- One iteration of `video_endpoint` (lines 66–86) on a frame received at
time `t`.  Python `if payload:` is false both for `None` and for empty
bytes, so such frames change nothing; otherwise the header is set if still
unset (lines 77–79) and the packet is appended (lines 81–82). -/
def videoStep (s : SysState) (fr : Frame) (t : ℚ) : SysState :=
  match framePayload fr with
  | none => s
  | some p =>
    if p = [] then s
    else
      { s with
        video_header := (match s.video_header with | none => some p | some h => some h),
        video_buffer := s.video_buffer ++ [{ data := p, time := t }] }

/-- One iteration of `audio_endpoint` (lines 100–115): same shape, no
header. -/
def audioStep (s : SysState) (fr : Frame) (t : ℚ) : SysState :=
  match framePayload fr with
  | none => s
  | some p =>
    if p = [] then s
    else { s with audio_buffer := s.audio_buffer ++ [{ data := p, time := t }] }

/-- One scheduler tick (lines 130–270): atomically drain both buffers
(lines 137–145), run the tick body on the drained batches, and store the
updated counter. -/
def schedStep (s : SysState) (r : MuxResult) : SysState × TickOutcome :=
  let out := processTick s.chunk_counter s.video_buffer s.audio_buffer s.video_header r
  ({ s with
      video_buffer := []
      audio_buffer := []
      chunk_counter := match out with
        | TickOutcome.processed _ _ _ _ n => n
        | _ => s.chunk_counter },
    out)

/-- An interleaved event: a video frame, an audio frame, or a scheduler
tick whose FFmpeg invocation observes `r`. -/
inductive Ev where
  | vframe (fr : Frame) (t : ℚ)
  | aframe (fr : Frame) (t : ℚ)
  | tick (r : MuxResult)

/-- Fold one event into state plus the list of tick outcomes so far. -/
def runStep (acc : SysState × List TickOutcome) (e : Ev) : SysState × List TickOutcome :=
  match e with
  | Ev.vframe fr t => (videoStep acc.1 fr t, acc.2)
  | Ev.aframe fr t => (audioStep acc.1 fr t, acc.2)
  | Ev.tick r =>
    let p := schedStep acc.1 r
    (p.1, acc.2 ++ [p.2])

/-- Run a whole interleaving from process start. -/
def run (tr : List Ev) : SysState × List TickOutcome :=
  tr.foldl runStep (initState, [])

/-- The non-empty video payload carried by an event, if any. -/
def evPayload : Ev → Option (List Nat)
  | Ev.vframe fr _ =>
    match framePayload fr with
    | some p => if p = [] then none else some p
    | none => none
  | _ => none

/-- The first non-empty payload extracted by the video receiver in a trace:
the value the stream header is captured from. -/
def firstVideoPayload (tr : List Ev) : Option (List Nat) :=
  (tr.filterMap evPayload).head?

/-- States whose buffers hold only non-empty payloads and whose header, if
set, is non-empty. -/
def goodState (s : SysState) : Prop :=
  (∀ p ∈ s.video_buffer, p.data ≠ []) ∧
  (∀ p ∈ s.audio_buffer, p.data ≠ []) ∧
  (∀ h, s.video_header = some h → h ≠ [])

/-- One hundred video packets whose capture timestamps span 10 time units:
the input of C6's "in particular" scenario. -/
def videoHundred : List Packet :=
  { data := [0], time := 0 }
    :: (List.replicate 98 ({ data := [0], time := 5 } : Packet)
        ++ [{ data := [0], time := 10 }])

/-- A concrete interleaving with three consecutive successful chunks (each
published: exit 0, 100000 bytes) followed by two more video frames and a
fourth tick. -/
def trC9 : List Ev :=
  [ Ev.vframe (Frame.binary [1]) 0,
    Ev.vframe (Frame.binary [1]) 15,
    Ev.tick ⟨0, true, 100000⟩,
    Ev.vframe (Frame.binary [2]) 100,
    Ev.vframe (Frame.binary [2]) 115,
    Ev.tick ⟨0, true, 100000⟩,
    Ev.vframe (Frame.binary [3]) 200,
    Ev.vframe (Frame.binary [3]) 215,
    Ev.tick ⟨0, true, 100000⟩,
    Ev.vframe (Frame.binary [9]) 300,
    Ev.vframe (Frame.binary [9]) 315,
    Ev.tick ⟨0, true, 100000⟩ ]

end Bridge

namespace Bridge

/-- Key structural lemma: the concatenation of all drained batches followed
by the final live buffer is exactly the initial buffer followed by all
appended packets, in order. -/
theorem execBufOps_join (ops : List BufOp) (buf : List Packet) :
    ((execBufOps ops buf).2.flatten) ++ (execBufOps ops buf).1
      = buf ++ appendedPackets ops := by
  induction ops generalizing buf with
  | nil => simp [execBufOps, appendedPackets]
  | cons op rest ih =>
    cases op with
    | append p =>
      simp only [execBufOps, appendedPackets]
      rw [ih]
      simp
    | drain =>
      simp only [execBufOps, appendedPackets, List.flatten_cons]
      rw [List.append_assoc, ih []]
      simp

/-- Facts about every alphabet character, checked by evaluation: `b64index`
inverts `encChar`, alphabet characters are ASCII, and none of them is the
padding character. -/
theorem encChar_facts : ∀ v : Fin 64,
    b64index (encChar v.val) = some v.val
      ∧ (encChar v.val).toNat < 128 ∧ encChar v.val ≠ '=' := by decide

/-- Base64 round trip at the group level: decoding an encoded byte string
yields the original bytes. -/
theorem b64decodeGroups_encode : ∀ B : List Nat, (∀ b ∈ B, b < 256) →
    b64decodeGroups (b64encode B) = some B := by
  intro B
  induction B using threeStepInd with
  | h0 => intro _; rfl
  | h1 a =>
    intro hB
    have ha : a < 256 := hB a (by simp)
    have e1 : b64index (encChar (a / 4)) = some (a / 4) :=
      (encChar_facts ⟨a / 4, by omega⟩).1
    have e2 : b64index (encChar (a % 4 * 16)) = some (a % 4 * 16) :=
      (encChar_facts ⟨a % 4 * 16, by omega⟩).1
    simp [b64encode, b64decodeGroups, e1, e2]
    omega
  | h2 a b =>
    intro hB
    have ha : a < 256 := hB a (by simp)
    have hb : b < 256 := hB b (by simp)
    have e1 : b64index (encChar (a / 4)) = some (a / 4) :=
      (encChar_facts ⟨a / 4, by omega⟩).1
    have e2 : b64index (encChar (a % 4 * 16 + b / 16)) = some (a % 4 * 16 + b / 16) :=
      (encChar_facts ⟨a % 4 * 16 + b / 16, by omega⟩).1
    have e3 : b64index (encChar (b % 16 * 4)) = some (b % 16 * 4) :=
      (encChar_facts ⟨b % 16 * 4, by omega⟩).1
    have n3 : encChar (b % 16 * 4) ≠ '=' := (encChar_facts ⟨b % 16 * 4, by omega⟩).2.2
    simp [b64encode, b64decodeGroups, e1, e2, e3, n3]
    omega
  | h3 a b c rest ih =>
    intro hB
    have ha : a < 256 := hB a (by simp)
    have hb : b < 256 := hB b (by simp)
    have hc : c < 256 := hB c (by simp)
    have e1 : b64index (encChar (a / 4)) = some (a / 4) :=
      (encChar_facts ⟨a / 4, by omega⟩).1
    have e2 : b64index (encChar (a % 4 * 16 + b / 16)) = some (a % 4 * 16 + b / 16) :=
      (encChar_facts ⟨a % 4 * 16 + b / 16, by omega⟩).1
    have e3 : b64index (encChar (b % 16 * 4 + c / 64)) = some (b % 16 * 4 + c / 64) :=
      (encChar_facts ⟨b % 16 * 4 + c / 64, by omega⟩).1
    have e4 : b64index (encChar (c % 64)) = some (c % 64) :=
      (encChar_facts ⟨c % 64, by omega⟩).1
    have n3 : encChar (b % 16 * 4 + c / 64) ≠ '=' :=
      (encChar_facts ⟨b % 16 * 4 + c / 64, by omega⟩).2.2
    have n4 : encChar (c % 64) ≠ '=' := (encChar_facts ⟨c % 64, by omega⟩).2.2
    have htl : b64decodeGroups (b64encode rest) = some rest :=
      ih (fun x hx => hB x (by simp [hx]))
    simp [b64encode, b64decodeGroups, e1, e2, e3, e4, n3, n4, htl]
    omega

/-- Every character emitted by the encoder is ASCII and survives the
decoder's discard filter (alphabet character or padding). -/
theorem b64encode_chars : ∀ B : List Nat, (∀ b ∈ B, b < 256) →
    ∀ ch ∈ b64encode B, ch.toNat < 128 ∧ ((b64index ch).isSome || ch = '=') = true := by
  intro B
  induction B using threeStepInd with
  | h0 => intro _ ch hch; simp [b64encode] at hch
  | h1 a =>
    intro hB ch hch
    have ha : a < 256 := hB a (by simp)
    simp only [b64encode, List.mem_cons, List.not_mem_nil, or_false] at hch
    rcases hch with h | h | h | h <;> subst h
    · exact ⟨(encChar_facts ⟨a / 4, by omega⟩).2.1,
        by simp [(encChar_facts ⟨a / 4, by omega⟩).1]⟩
    · exact ⟨(encChar_facts ⟨a % 4 * 16, by omega⟩).2.1,
        by simp [(encChar_facts ⟨a % 4 * 16, by omega⟩).1]⟩
    · exact ⟨by decide, by decide⟩
    · exact ⟨by decide, by decide⟩
  | h2 a b =>
    intro hB ch hch
    have ha : a < 256 := hB a (by simp)
    have hb : b < 256 := hB b (by simp)
    simp only [b64encode, List.mem_cons, List.not_mem_nil, or_false] at hch
    rcases hch with h | h | h | h <;> subst h
    · exact ⟨(encChar_facts ⟨a / 4, by omega⟩).2.1,
        by simp [(encChar_facts ⟨a / 4, by omega⟩).1]⟩
    · exact ⟨(encChar_facts ⟨a % 4 * 16 + b / 16, by omega⟩).2.1,
        by simp [(encChar_facts ⟨a % 4 * 16 + b / 16, by omega⟩).1]⟩
    · exact ⟨(encChar_facts ⟨b % 16 * 4, by omega⟩).2.1,
        by simp [(encChar_facts ⟨b % 16 * 4, by omega⟩).1]⟩
    · exact ⟨by decide, by decide⟩
  | h3 a b c rest ih =>
    intro hB ch hch
    have ha : a < 256 := hB a (by simp)
    have hb : b < 256 := hB b (by simp)
    have hc : c < 256 := hB c (by simp)
    simp only [b64encode, List.mem_cons] at hch
    rcases hch with h | h | h | h | h
    · subst h
      exact ⟨(encChar_facts ⟨a / 4, by omega⟩).2.1,
        by simp [(encChar_facts ⟨a / 4, by omega⟩).1]⟩
    · subst h
      exact ⟨(encChar_facts ⟨a % 4 * 16 + b / 16, by omega⟩).2.1,
        by simp [(encChar_facts ⟨a % 4 * 16 + b / 16, by omega⟩).1]⟩
    · subst h
      exact ⟨(encChar_facts ⟨b % 16 * 4 + c / 64, by omega⟩).2.1,
        by simp [(encChar_facts ⟨b % 16 * 4 + c / 64, by omega⟩).1]⟩
    · subst h
      exact ⟨(encChar_facts ⟨c % 64, by omega⟩).2.1,
        by simp [(encChar_facts ⟨c % 64, by omega⟩).1]⟩
    · exact ih (fun x hx => hB x (by simp [hx])) ch h

/-- Python-level base64 round trip: `b64decode` of the textual encoding of a
byte string returns the byte string. -/
theorem b64decodePy_encode (B : List Nat) (hB : ∀ b ∈ B, b < 256) :
    b64decodePy (b64encode B) = some B := by
  have hch := b64encode_chars B hB
  unfold b64decodePy
  rw [if_pos]
  · rw [List.filter_eq_self.mpr (fun ch hc => (hch ch hc).2)]
    exact b64decodeGroups_encode B hB
  · exact List.all_eq_true.mpr (fun ch hc => by simpa using (hch ch hc).1)

/-- Draining leaves the live buffer empty, whatever came before. -/
theorem execBufOps_drain_last (pre : List BufOp) (buf : List Packet) :
    (execBufOps (pre ++ [BufOp.drain]) buf).1 = [] := by
  induction pre generalizing buf with
  | nil => rfl
  | cons op rest ih =>
    cases op with
    | append p => simpa [execBufOps] using ih (buf ++ [p])
    | drain => simpa [execBufOps] using ih []

/-- Lemma: `firstVideoPayload` looks at the first event first. -/
theorem firstVideoPayload_cons (e : Ev) (rest : List Ev) :
    firstVideoPayload (e :: rest) = (evPayload e).or (firstVideoPayload rest) := by
  cases hfe : evPayload e <;>
    simp [firstVideoPayload, List.filterMap_cons, hfe]

/-- The audio receiver never touches the header. -/
theorem audioStep_header (s : SysState) (fr : Frame) (t : ℚ) :
    (audioStep s fr t).video_header = s.video_header := by
  unfold audioStep
  cases framePayload fr with
  | none => rfl
  | some p =>
    by_cases hpe : p = [] <;> simp [hpe]

/-- The scheduler never touches the header. -/
theorem schedStep_header (s : SysState) (r : MuxResult) :
    ((schedStep s r).1).video_header = s.video_header := rfl

/-- The header after any interleaving starting at `s` is the header of `s`
if already set, and otherwise the first non-empty video payload of the
interleaving. -/
theorem foldl_header (tr : List Ev) : ∀ (s : SysState) (outs : List TickOutcome),
    ((tr.foldl runStep (s, outs)).1).video_header
      = s.video_header.or (firstVideoPayload tr) := by
  induction tr with
  | nil => intro s outs; simp [firstVideoPayload]
  | cons e rest ih =>
    intro s outs
    rw [firstVideoPayload_cons]
    cases e with
    | vframe fr t =>
      simp only [List.foldl_cons, runStep]
      rw [ih]
      cases hp : framePayload fr with
      | none => simp [videoStep, hp, evPayload]
      | some p =>
        by_cases hpe : p = []
        · simp [videoStep, hp, hpe, evPayload]
        · have hv : (videoStep s fr t).video_header = s.video_header.or (some p) := by
            unfold videoStep
            rw [hp]
            cases s.video_header <;> simp [hpe, Option.or]
          rw [hv]
          have he : evPayload (Ev.vframe fr t) = some p := by
            simp [evPayload, hp, hpe]
          rw [he, Option.or_assoc]
    | aframe fr t =>
      simp only [List.foldl_cons, runStep]
      rw [ih]
      rw [audioStep_header]
      simp [evPayload]
    | tick r =>
      simp only [List.foldl_cons, runStep]
      rw [ih]
      rw [schedStep_header]
      simp [evPayload]

/-- A tick that produces a chunk writes the temp video file as the current
header followed by the drained video payloads in order. -/
theorem schedStep_videoFile (s : SysState) (r : MuxResult) (s2 : SysState)
    (fps : ℚ) (c : List Nat) (a : Option (List Nat)) (f : TickFiles) (n : Nat) :
    schedStep s r = (s2, TickOutcome.processed fps c a f n) →
      c = (s.video_header.getD []) ++ ((s.video_buffer.map Packet.data).flatten) := by
  unfold schedStep processTick
  cases hv : s.video_buffer with
  | nil => intro h; simp at h
  | cons v vs =>
    by_cases hd : ((v :: vs).getLast (List.cons_ne_nil v vs)).time - v.time < 15
    · simp only [hd, if_true]
      intro h
      simp at h
    · simp only [hd, if_false]
      intro h
      have := congrArg Prod.snd h
      simp only at this
      cases this
      cases s.video_header <;> rfl

/-- A video receiver iteration preserves `goodState`: empty and absent
payloads are dropped before any append or header capture. -/
theorem goodState_videoStep (s : SysState) (fr : Frame) (t : ℚ)
    (hs : goodState s) : goodState (videoStep s fr t) := by
  unfold videoStep
  cases hp : framePayload fr with
  | none => exact hs
  | some p =>
    by_cases hpe : p = []
    · simp only [hpe, if_true]
      exact hs
    · simp only [hpe, if_false]
      refine ⟨?_, hs.2.1, ?_⟩
      · intro q hq
        rw [List.mem_append] at hq
        cases hq with
        | inl hq => exact hs.1 q hq
        | inr hq =>
          rw [List.mem_singleton] at hq
          rw [hq]
          exact hpe
      · intro h hh
        cases hh0 : s.video_header with
        | none =>
          rw [hh0] at hh
          simp only at hh
          cases hh
          exact hpe
        | some h0 =>
          rw [hh0] at hh
          simp only at hh
          have hx : h0 = h := Option.some.inj hh
          rw [← hx]
          exact hs.2.2 h0 hh0

/-- An audio receiver iteration preserves `goodState`. -/
theorem goodState_audioStep (s : SysState) (fr : Frame) (t : ℚ)
    (hs : goodState s) : goodState (audioStep s fr t) := by
  unfold audioStep
  cases hp : framePayload fr with
  | none => exact hs
  | some p =>
    by_cases hpe : p = []
    · simp only [hpe, if_true]
      exact hs
    · simp only [hpe, if_false]
      refine ⟨hs.1, ?_, hs.2.2⟩
      intro q hq
      rw [List.mem_append] at hq
      cases hq with
      | inl hq => exact hs.2.1 q hq
      | inr hq =>
        rw [List.mem_singleton] at hq
        rw [hq]
        exact hpe

/-- A scheduler tick preserves `goodState` (it empties the buffers and keeps
the header). -/
theorem goodState_schedStep (s : SysState) (r : MuxResult)
    (hs : goodState s) : goodState ((schedStep s r).1) := by
  refine ⟨?_, ?_, hs.2.2⟩ <;> simp [schedStep]

/-- Invariance: `goodState` is an invariant of whole interleavings. -/
theorem goodState_foldl (tr : List Ev) : ∀ (s : SysState) (outs : List TickOutcome),
    goodState s → goodState ((tr.foldl runStep (s, outs)).1) := by
  induction tr with
  | nil => intro s outs hs; exact hs
  | cons e rest ih =>
    intro s outs hs
    cases e with
    | vframe fr t => exact ih _ _ (goodState_videoStep s fr t hs)
    | aframe fr t => exact ih _ _ (goodState_audioStep s fr t hs)
    | tick r => exact ih _ _ (goodState_schedStep s r hs)

/-- The `tickSpan` of a non-empty batch is last minus first timestamp. -/
theorem tickSpan_cons (v : Packet) (vs : List Packet) :
    tickSpan (v :: vs) = ((v :: vs).getLast (List.cons_ne_nil v vs)).time - v.time := by
  unfold tickSpan
  rw [List.getLast?_eq_getLast (v :: vs) (List.cons_ne_nil v vs)]
  simp

/-- Inversion of a tick that reached the muxing stage: the drained video was
non-empty, its span passed the admission check, and every component of the
outcome is determined by the inputs. -/
theorem processTick_processed (counter : Nat) (video audio : List Packet)
    (header : Option (List Nat)) (r : MuxResult) (fps : ℚ) (c : List Nat)
    (a : Option (List Nat)) (f : TickFiles) (n : Nat)
    (hp : processTick counter video audio header r
      = TickOutcome.processed fps c a f n) :
    f = validateAndPublish r
    ∧ n = counter + 1
    ∧ c = (header.getD []) ++ ((video.map Packet.data).flatten)
    ∧ fps = computeFps video.length (tickSpan video)
    ∧ a = (if audio.isEmpty then none else some ((audio.map Packet.data).flatten))
    ∧ video ≠ []
    ∧ ¬ (tickSpan video < 15) := by
  cases video with
  | nil => simp [processTick] at hp
  | cons v vs =>
    simp only [processTick] at hp
    rw [← tickSpan_cons v vs] at hp
    by_cases hd : tickSpan (v :: vs) < 15
    · rw [if_pos hd] at hp
      simp at hp
    · rw [if_neg hd] at hp
      injection hp with h1 h2 h3 h4 h5
      refine ⟨h4.symm, h5.symm, ?_, h1.symm, h3.symm, List.cons_ne_nil v vs, hd⟩
      rw [← h2]
      cases header <;> rfl

/-- A pattern is a prefix of itself followed by anything. -/
theorem listStartsWith_append (p rest : List Char) :
    listStartsWith p (p ++ rest) = true := by
  induction p with
  | nil => rfl
  | cons a as ih => simp [listStartsWith, ih]

/-- The hidden temporary output name is invisible to the directory
watcher's filter. -/
theorem watcher_ignores_temp (t : Nat) :
    watcherAccepts (temp_output_filename t) = false := by
  unfold watcherAccepts
  have hd : (temp_output_filename t).toList = '.' :: ("temp_".toList
      ++ (output_filename t).toList) := by
    show (temp_output_filename t).data = '.' :: ("temp_".data ++ (output_filename t).data)
    unfold temp_output_filename
    rw [String.data_append]
    rfl
  rw [hd]
  simp [listStartsWith]

/-- The final published name is matched by the directory watcher's filter:
it ends in `.mp4` and does not start with the hidden marker. -/
theorem watcher_accepts_final (t : Nat) :
    watcherAccepts (output_filename t) = true := by
  unfold watcherAccepts
  have hd : (output_filename t).toList = 'l' :: ("ive_stream_".toList
      ++ ((toString t).toList ++ ".mp4".toList)) := by
    show (output_filename t).data = 'l' :: ("ive_stream_".data
      ++ ((toString t).data ++ ".mp4".data))
    unfold output_filename
    rw [String.data_append, String.data_append]
    rfl
  rw [hd, Bool.and_eq_true]
  constructor
  · have : ('l' :: ("ive_stream_".toList ++ ((toString t).toList
        ++ ".mp4".toList))).reverse
        = ".mp4".toList.reverse ++ (((toString t).toList).reverse
          ++ ("ive_stream_".toList.reverse ++ ['l'])) := by
      simp
    rw [this]
    exact listStartsWith_append _ _
  · simp [listStartsWith]

/-- The hidden temporary name never equals the final name. -/
theorem temp_ne_final (t u : Nat) : temp_output_filename t ≠ output_filename u := by
  intro heq
  have hd := congrArg String.data heq
  unfold temp_output_filename output_filename at hd
  rw [String.data_append] at hd
  have h1 : (".temp_").data = '.' :: "temp_".data := rfl
  have h2 : ("live_stream_" ++ toString u ++ ".mp4").data
      = 'l' :: ("ive_stream_" ++ toString u ++ ".mp4").data := by
    rw [String.data_append, String.data_append, String.data_append, String.data_append]
    rfl
  rw [h1, h2] at hd
  exact absurd (List.head_eq_of_cons_eq hd) (by decide)

/-- The list `videoHundred` really has 100 packets and spans 10 time units. -/
theorem videoHundred_shape :
    videoHundred.length = 100 ∧ tickSpan videoHundred = 10 := by
  constructor
  · simp [videoHundred]
  · simp [videoHundred, tickSpan]

/-- Core's fuelled digit printer agrees with `Nat.digits`: for `0 < n ≤ f`,
it emits the base-`b` digits (most significant first) before `acc`. -/
theorem toDigitsCore_eq_digits (b : Nat) (hb : 2 ≤ b) :
    ∀ (f n : Nat) (acc : List Char), n ≠ 0 → n ≤ f →
      Nat.toDigitsCore b f n acc
        = ((Nat.digits b n).map Nat.digitChar).reverse ++ acc := by
  intro f
  induction f with
  | zero => intro n acc hn hf; omega
  | succ f ih =>
    intro n acc hn hf
    have hdig : Nat.digits b n = n % b :: Nat.digits b (n / b) :=
      Nat.digits_def' (by omega) (Nat.pos_of_ne_zero hn)
    by_cases hq : n / b = 0
    · have hstep : Nat.toDigitsCore b (f + 1) n acc
          = Nat.digitChar (n % b) :: acc := by
        simp only [Nat.toDigitsCore]
        simp [hq]
      rw [hstep, hdig, hq]
      simp
    · have hstep : Nat.toDigitsCore b (f + 1) n acc
          = Nat.toDigitsCore b f (n / b) (Nat.digitChar (n % b) :: acc) := by
        simp only [Nat.toDigitsCore]
        simp [hq]
      have hlt : n / b < n := Nat.div_lt_self (Nat.pos_of_ne_zero hn) (by omega)
      rw [hstep, ih (n / b) _ hq (by omega), hdig]
      simp

/-- Core `Nat.toDigits` of a positive number is its decimal digits, most
significant first. -/
theorem toDigits_eq_digits (n : Nat) (hn : n ≠ 0) :
    Nat.toDigits 10 n = ((Nat.digits 10 n).map Nat.digitChar).reverse := by
  unfold Nat.toDigits
  rw [toDigitsCore_eq_digits 10 (by omega) (n + 1) n [] hn (by omega)]
  simp

/-- Function `Nat.digitChar` is injective below 10. -/
theorem digitChar_inj_lt10 : ∀ a b : Fin 10,
    Nat.digitChar a.val = Nat.digitChar b.val → a = b := by decide

/-- Mapping `digitChar` over digit lists (entries < 10) is injective. -/
theorem map_digitChar_inj : ∀ l1 l2 : List Nat,
    (∀ x ∈ l1, x < 10) → (∀ x ∈ l2, x < 10) →
    l1.map Nat.digitChar = l2.map Nat.digitChar → l1 = l2 := by
  intro l1
  induction l1 with
  | nil =>
    intro l2 _ _ h
    cases l2 with
    | nil => rfl
    | cons b t2 => simp at h
  | cons a t ih =>
    intro l2 h1 h2 h
    cases l2 with
    | nil => simp at h
    | cons b t2 =>
      simp only [List.map_cons, List.cons.injEq] at h
      have ha : a < 10 := h1 a (by simp)
      have hb : b < 10 := h2 b (by simp)
      have hab : a = b :=
        congrArg Fin.val (digitChar_inj_lt10 ⟨a, ha⟩ ⟨b, hb⟩ h.1)
      rw [hab, ih t2 (fun x hx => h1 x (by simp [hx]))
        (fun x hx => h2 x (by simp [hx])) h.2]

/-- The decimal rendering of a natural number is injective. -/
theorem natToString_inj (m n : Nat) (h : toString m = toString n) : m = n := by
  have h2 : (Nat.toDigits 10 m).asString = (Nat.toDigits 10 n).asString := h
  have hd : Nat.toDigits 10 m = Nat.toDigits 10 n := congrArg String.data h2
  have hzero : ∀ k : Nat, k ≠ 0 → Nat.toDigits 10 0 ≠ Nat.toDigits 10 k := by
    intro k hk heq
    rw [toDigits_eq_digits k hk] at heq
    have hmap : (Nat.digits 10 k).map Nat.digitChar = ['0'] := by
      have := congrArg List.reverse heq
      simpa using this.symm
    cases hdg : Nat.digits 10 k with
    | nil => rw [hdg] at hmap; simp at hmap
    | cons d ds =>
      rw [hdg] at hmap
      cases ds with
      | nil =>
        simp only [List.map_cons, List.map_nil, List.cons.injEq, and_true] at hmap
        have hdlt : d < 10 := Nat.digits_lt_base (by omega) (by rw [hdg]; simp)
        have hd0 : d = 0 := by
          have := digitChar_inj_lt10 ⟨d, hdlt⟩ ⟨0, by omega⟩ (by simpa using hmap)
          exact congrArg Fin.val this
        have hofd := Nat.ofDigits_digits 10 k
        rw [hdg, hd0] at hofd
        simp [Nat.ofDigits] at hofd
        exact hk hofd.symm
      | cons d2 ds2 => simp at hmap
  by_cases hm : m = 0 <;> by_cases hn2 : n = 0
  · rw [hm, hn2]
  · exact absurd (hm ▸ hd) (hzero n hn2)
  · exact absurd (hn2 ▸ hd.symm) (hzero m hm)
  · rw [toDigits_eq_digits m hm, toDigits_eq_digits n hn2] at hd
    have h4 := List.reverse_injective hd
    have h5 := map_digitChar_inj _ _
      (fun x hx => Nat.digits_lt_base (by omega) hx)
      (fun x hx => Nat.digits_lt_base (by omega) hx) h4
    exact Nat.digits.injective 10 h5

/-- Distinct capture timestamps give distinct final chunk names. -/
theorem output_filename_inj (t u : Nat)
    (h : output_filename t = output_filename u) : t = u := by
  unfold output_filename at h
  have hd := congrArg String.data h
  rw [String.data_append, String.data_append, String.data_append,
    String.data_append] at hd
  have h1 := List.append_cancel_right hd
  have h2 := List.append_cancel_left h1
  have h3 : toString t = toString u := by
    have := h2
    cases ht : toString t
    cases hu : toString u
    rw [ht, hu] at this
    exact congrArg String.mk this
  exact natToString_inj t u h3

end Bridge

/-- C1: For every sequence of append and drain operations on a
MediaBuffer — and, since every access holds `buffer_lock`, every concurrent
interleaving of receivers and the scheduler is such a sequence — the drained
batches concatenated in order, followed by the final live buffer, are exactly
the appended packets in arrival order; hence each appended packet occurrence
lands in exactly one drained batch (or the final buffer) and never in two,
and batches keep arrival order.  Moreover, immediately after a drain the live
buffer is empty. -/
theorem mediaBuffer_append_drain_correct (ops : List Bridge.BufOp) :
    ((Bridge.execBufOps ops []).2.flatten) ++ (Bridge.execBufOps ops []).1
        = Bridge.appendedPackets ops
    ∧ (∀ p : Bridge.Packet,
        ((Bridge.execBufOps ops []).2.flatten).count p
          + ((Bridge.execBufOps ops []).1).count p
          = (Bridge.appendedPackets ops).count p)
    ∧ (∀ pre : List Bridge.BufOp,
        (Bridge.execBufOps (pre ++ [Bridge.BufOp.drain]) []).1 = []) := by
  refine ⟨by simpa using Bridge.execBufOps_join ops [], ?_, ?_⟩
  · intro p
    rw [← List.count_append]
    rw [Bridge.execBufOps_join ops []]
    simp
  · intro pre
    exact Bridge.execBufOps_drain_last pre []

/-- C7: For arbitrary bytes `B`, `extract_payload` applied to a text
frame wrapping `base64(B)` in shape (a) (`data.data.buffer`), shape (b)
(top-level string field `data`) or shape (c) (string field `payload`)
returns exactly `B`. -/
theorem payloadExtractor_roundtrip (B : List Nat) (hB : ∀ b ∈ B, b < 256) :
    Bridge.extract_payload (Bridge.shapeA B) = some B
    ∧ Bridge.extract_payload (Bridge.shapeB B) = some B
    ∧ Bridge.extract_payload (Bridge.shapeC B) = some B := by
  have hdec : Bridge.b64decodePy (Bridge.b64encode B) = some B :=
    Bridge.b64decodePy_encode B hB
  refine ⟨?_, ?_, ?_⟩ <;>
    simp [Bridge.extract_payload, Bridge.tryNested, Bridge.tryPayloadField,
      Bridge.getSub, Bridge.pyIn, Bridge.shapeA, Bridge.shapeB, Bridge.shapeC,
      List.lookup, hdec]

/-- Witness for C7 at the concrete byte string `[72, 105, 33]`. -/
theorem payloadExtractor_roundtrip_witness :
    Bridge.extract_payload (Bridge.shapeA [72, 105, 33]) = some [72, 105, 33]
    ∧ Bridge.extract_payload (Bridge.shapeB [72, 105, 33]) = some [72, 105, 33]
    ∧ Bridge.extract_payload (Bridge.shapeC [72, 105, 33]) = some [72, 105, 33] :=
  payloadExtractor_roundtrip [72, 105, 33] (by decide)

/-- C3: The StreamHeader is assigned at most once, from the first
non-empty video payload extracted (conjuncts 1 and 2: over any
interleaving, the header equals the first non-empty video payload, and once
set it is never overwritten); and every temporary elementary video file
written by a tick begins with exactly those header bytes followed by the
concatenation of that tick's drained video payloads in arrival order
(conjunct 3). -/
theorem streamHeader_write_once :
    (∀ tr : List Bridge.Ev,
      (Bridge.run tr).1.video_header = Bridge.firstVideoPayload tr)
    ∧ (∀ (pre suf : List Bridge.Ev) (h : List Nat),
        (Bridge.run pre).1.video_header = some h →
        (Bridge.run (pre ++ suf)).1.video_header = some h)
    ∧ (∀ (s : Bridge.SysState) (r : Bridge.MuxResult) (s2 : Bridge.SysState)
        (fps : ℚ) (c : List Nat) (a : Option (List Nat)) (f : Bridge.TickFiles)
        (n : Nat),
        Bridge.schedStep s r = (s2, Bridge.TickOutcome.processed fps c a f n) →
        c = (s.video_header.getD [])
          ++ ((s.video_buffer.map Bridge.Packet.data).flatten)) := by
  refine ⟨?_, ?_, ?_⟩
  · intro tr
    have h := Bridge.foldl_header tr Bridge.initState []
    simpa [Bridge.run, Bridge.initState] using h
  · intro pre suf h hpre
    have he : Bridge.run (pre ++ suf) = suf.foldl Bridge.runStep (Bridge.run pre) := by
      simp [Bridge.run, List.foldl_append]
    rw [he]
    have h2 := Bridge.foldl_header suf (Bridge.run pre).1 (Bridge.run pre).2
    rw [Prod.mk.eta] at h2
    rw [h2, hpre]
    rfl
  · intro s r s2 fps c a f n h
    exact Bridge.schedStep_videoFile s r s2 fps c a f n h

/-- Witness for C3: a concrete trace sets the header from its first
non-empty video payload, and a later video frame does not overwrite it. -/
theorem streamHeader_write_once_witness :
    (Bridge.run ([Bridge.Ev.vframe (Bridge.Frame.binary [7]) 0]
        ++ [Bridge.Ev.vframe (Bridge.Frame.binary [8]) 1])).1.video_header
      = some [7] :=
  streamHeader_write_once.2.1 [Bridge.Ev.vframe (Bridge.Frame.binary [7]) 0]
    [Bridge.Ev.vframe (Bridge.Frame.binary [8]) 1] [7] (by decide)

/-- C10: A frame whose extracted payload is absent or empty is dropped
by both receivers: the state is unchanged, so no packet is appended and the
header is not set (conjunct 1).  Consequently, over any interleaving, every
packet ever held in either buffer has a non-empty payload and the header,
when set, is non-empty (conjunct 2). -/
theorem emptyPayload_frames_dropped :
    (∀ (s : Bridge.SysState) (fr : Bridge.Frame) (t : ℚ),
      (Bridge.framePayload fr = none ∨ Bridge.framePayload fr = some []) →
      Bridge.videoStep s fr t = s ∧ Bridge.audioStep s fr t = s)
    ∧ (∀ tr : List Bridge.Ev,
        (∀ p ∈ (Bridge.run tr).1.video_buffer, p.data ≠ [])
        ∧ (∀ p ∈ (Bridge.run tr).1.audio_buffer, p.data ≠ [])
        ∧ (∀ h, (Bridge.run tr).1.video_header = some h → h ≠ [])) := by
  constructor
  · intro s fr t hp
    cases hp with
    | inl hp => constructor <;> simp [Bridge.videoStep, Bridge.audioStep, hp]
    | inr hp => constructor <;> simp [Bridge.videoStep, Bridge.audioStep, hp]
  · intro tr
    have h := Bridge.goodState_foldl tr Bridge.initState []
      ⟨by simp [Bridge.initState], by simp [Bridge.initState], by simp [Bridge.initState]⟩
    exact h

/-- Witness for C10: an empty binary frame leaves the state unchanged on
both endpoints. -/
theorem emptyPayload_frames_dropped_witness :
    Bridge.videoStep Bridge.initState (Bridge.Frame.binary []) 0 = Bridge.initState
    ∧ Bridge.audioStep Bridge.initState (Bridge.Frame.binary []) 0 = Bridge.initState :=
  emptyPayload_frames_dropped.1 Bridge.initState (Bridge.Frame.binary []) 0 (Or.inr rfl)

/-- Counterexample to **C2** as stated: when the transcoder exits 0 and the
output exists but does not exceed the 50 KiB floor, the code deletes the
output *and* the per-chunk log (the success-path cleanup loop at
bridge_server.py 257–260 runs on every exit-code-0 branch), whereas the
claim says the log is kept. -/
theorem muxer_undersized_log_deleted :
    Bridge.validateAndPublish { returncode := 0, outputExists := true, outputSize := 1024 }
      = { publishedFinal := false, tempOutput := false, logKept := false,
          tempInputsKept := false } := rfl

/-- C2 (amended): When the transcoder exits 0, the chunk is published at
its final path iff the output exists and its size strictly exceeds the
50 KiB floor; the temporary output name never survives; the log and the
temporary inputs are deleted on every exit-code-0 branch (including the
undersized one, where the output file is deleted as well); and the hidden
temporary name is never observable by the directory watcher and never
coincides with a final name, so the chunk becomes visible only through the
single rename. -/
theorem muxer_publish_iff (r : Bridge.MuxResult) (hrc : r.returncode = 0) :
    ((Bridge.validateAndPublish r).publishedFinal = true
      ↔ (r.outputExists = true ∧ 50 * 1024 < r.outputSize))
    ∧ (Bridge.validateAndPublish r).tempOutput = false
    ∧ (Bridge.validateAndPublish r).logKept = false
    ∧ (Bridge.validateAndPublish r).tempInputsKept = false
    ∧ (∀ t u : Nat, Bridge.watcherAccepts (Bridge.temp_output_filename t) = false
        ∧ Bridge.temp_output_filename t ≠ Bridge.output_filename u) := by
  refine ⟨?_, ?_, ?_, ?_, fun t u => ⟨Bridge.watcher_ignores_temp t, Bridge.temp_ne_final t u⟩⟩ <;>
    unfold Bridge.validateAndPublish <;>
    rw [if_pos hrc] <;>
    cases he : r.outputExists <;>
    by_cases hs : 50 * 1024 < r.outputSize <;>
    simp [hs]

/-- Witness for C2 at a successful 60 KiB output. -/
theorem muxer_publish_iff_witness :
    ((Bridge.validateAndPublish ⟨0, true, 61440⟩).publishedFinal = true
      ↔ (true = true ∧ 50 * 1024 < 61440))
    ∧ (Bridge.validateAndPublish ⟨0, true, 61440⟩).tempOutput = false
    ∧ (Bridge.validateAndPublish ⟨0, true, 61440⟩).logKept = false
    ∧ (Bridge.validateAndPublish ⟨0, true, 61440⟩).tempInputsKept = false
    ∧ (∀ t u : Nat, Bridge.watcherAccepts (Bridge.temp_output_filename t) = false
        ∧ Bridge.temp_output_filename t ≠ Bridge.output_filename u) :=
  muxer_publish_iff ⟨0, true, 61440⟩ rfl

/-- C4: When the transcoder exits non-zero on a tick that reached the
muxing stage: nothing is published at the final path, no file remains at the
temporary output path, the diagnostic log is retained (the temporary inputs
too), and the chunk counter still advances, so the scheduler's next tick
proceeds from the incremented counter. -/
theorem transcoderFailure_no_publish (counter : Nat)
    (video audio : List Bridge.Packet) (header : Option (List Nat))
    (r : Bridge.MuxResult) (fps : ℚ) (c : List Nat) (a : Option (List Nat))
    (f : Bridge.TickFiles) (n : Nat) (hrc : r.returncode ≠ 0)
    (hp : Bridge.processTick counter video audio header r
      = Bridge.TickOutcome.processed fps c a f n) :
    f = { publishedFinal := false, tempOutput := false, logKept := true,
          tempInputsKept := true }
    ∧ n = counter + 1 := by
  obtain ⟨hf, hn, -, -, -, -, -⟩ :=
    Bridge.processTick_processed counter video audio header r fps c a f n hp
  refine ⟨?_, hn⟩
  rw [hf]
  unfold Bridge.validateAndPublish
  rw [if_neg hrc]

/-- Witness for C4: exit code 1 on a two-packet tick spanning 20 time
units. -/
theorem transcoderFailure_no_publish_witness :
    (⟨false, false, true, true⟩ : Bridge.TickFiles)
      = { publishedFinal := false, tempOutput := false, logKept := true,
          tempInputsKept := true }
    ∧ (1 : Nat) = 0 + 1 :=
  transcoderFailure_no_publish 0 [⟨[5], 0⟩, ⟨[6], 20⟩] [] none ⟨1, true, 0⟩
    1 [5, 6] none ⟨false, false, true, true⟩ 1 (by decide)
    (by
      simp only [Bridge.processTick]
      norm_num [Bridge.computeFps, Bridge.round2, Bridge.roundHalfEven,
        Bridge.validateAndPublish, min_def, max_def])

/-- C5: A tick whose drained video span (last minus first capture
timestamp) is below the configured minimum of 15 is discarded by the
admission check at bridge_server.py 151–159: the outcome is
`skippedShort`, the `continue` taken before any temporary input file is
written, before FFmpeg is invoked, and before any chunk file can be
produced (the counter is not advanced either, since the `try`/`finally` is
never entered). -/
theorem shortSpan_discards_tick (counter : Nat) (v : Bridge.Packet)
    (vs audio : List Bridge.Packet) (header : Option (List Nat))
    (r : Bridge.MuxResult) (h : Bridge.tickSpan (v :: vs) < 15) :
    Bridge.processTick counter (v :: vs) audio header r
      = Bridge.TickOutcome.skippedShort := by
  simp only [Bridge.processTick]
  rw [← Bridge.tickSpan_cons v vs, if_pos h]

/-- Witness for C5: two packets 5 time units apart are discarded. -/
theorem shortSpan_discards_tick_witness :
    Bridge.processTick 0 [⟨[1], 0⟩, ⟨[2], 5⟩] [] none ⟨0, true, 100000⟩
      = Bridge.TickOutcome.skippedShort :=
  shortSpan_discards_tick 0 ⟨[1], 0⟩ [⟨[2], 5⟩] [] none ⟨0, true, 100000⟩
    (by norm_num [Bridge.tickSpan])

/-- Counterexample to **C6** as stated: a tick of 100 video packets
spanning 10 time units does not yield a frame-rate estimate of about 10 —
it never reaches the frame-rate computation, because the admission check
(duration < 15, bridge_server.py 157–159) discards the tick first. -/
theorem fps_example_tick_discarded :
    Bridge.videoHundred.length = 100
    ∧ Bridge.tickSpan Bridge.videoHundred = 10
    ∧ Bridge.processTick 0 Bridge.videoHundred [] none ⟨0, true, 100000⟩
        = Bridge.TickOutcome.skippedShort := by
  refine ⟨Bridge.videoHundred_shape.1, Bridge.videoHundred_shape.2, ?_⟩
  have h : Bridge.tickSpan Bridge.videoHundred < 15 := by
    rw [Bridge.videoHundred_shape.2]
    norm_num
  unfold Bridge.videoHundred at h ⊢
  simp only [Bridge.processTick]
  rw [← Bridge.tickSpan_cons]
  rw [if_pos h]

/-- C6 (amended): For a tick that passes the admission checks (video
span at least 15), the frame rate handed to the transcoder is the drained
video packet count divided by the observed span, clamped to [1, 60] and
then rounded to two decimals (`round(x, 2)`, bridge_server.py 169).  The
claim's example input (100 packets over 10 units) cannot pass admission; an
admitted example: 2 packets spanning 15 units give
`round2 (clamp (2/15)) = 1`. -/
theorem fps_estimate_formula (counter : Nat) (v : Bridge.Packet)
    (vs audio : List Bridge.Packet) (header : Option (List Nat))
    (r : Bridge.MuxResult) (h : ¬ (Bridge.tickSpan (v :: vs) < 15)) :
    ∃ c a f, Bridge.processTick counter (v :: vs) audio header r
      = Bridge.TickOutcome.processed
          (Bridge.round2 (max (min (((v :: vs).length : ℚ) / Bridge.tickSpan (v :: vs)) 60) 1))
          c a f (counter + 1) := by
  have h10 : Bridge.tickSpan (v :: vs) > 1 / 10 := by
    push_neg at h
    linarith
  have hp : Bridge.processTick counter (v :: vs) audio header r
      = Bridge.TickOutcome.processed
          (Bridge.computeFps (v :: vs).length (Bridge.tickSpan (v :: vs)))
          ((header.getD []) ++ (((v :: vs).map Bridge.Packet.data).flatten))
          (if audio.isEmpty then none else some ((audio.map Bridge.Packet.data).flatten))
          (Bridge.validateAndPublish r) (counter + 1) := by
    simp only [Bridge.processTick]
    rw [← Bridge.tickSpan_cons v vs, if_neg h]
    cases header <;> rfl
  rw [Bridge.computeFps] at hp
  simp only [if_pos h10] at hp
  exact ⟨_, _, _, hp⟩

/-- Witness for C6: a two-packet tick spanning exactly 15 time units is
admitted and its frame-rate estimate is the claimed expression. -/
theorem fps_estimate_formula_witness :
    ∃ c a f, Bridge.processTick 0 [⟨[1], 0⟩, ⟨[2], 15⟩] [] none ⟨0, true, 100000⟩
      = Bridge.TickOutcome.processed
          (Bridge.round2 (max (min ((([⟨[1], 0⟩, ⟨[2], 15⟩] : List Bridge.Packet).length : ℚ)
            / Bridge.tickSpan [⟨[1], 0⟩, ⟨[2], 15⟩]) 60) 1))
          c a f (0 + 1) :=
  fps_estimate_formula 0 ⟨[1], 0⟩ [⟨[2], 15⟩] [] none ⟨0, true, 100000⟩
    (by norm_num [Bridge.tickSpan])

/-- Counterexample to **C8** as stated: the final published name
(`live_stream_<timestamp>.mp4`, bridge_server.py 179) is built from the
capture timestamp only — the chunk counter appears only in the temporary
base name (line 175).  Two distinct chunks (counters 0 and 1) that share a
capture timestamp are distinct chunks, yet receive the same final name. -/
theorem chunkName_counter_ignored :
    Bridge.base_name 1000 0 ≠ Bridge.base_name 1000 1
    ∧ Bridge.output_filename 1000 = Bridge.output_filename 1000 := by
  constructor
  · decide
  · rfl

/-- C8 (amended): The final published name is derived deterministically
from the capture timestamp alone (the counter namespaces only the temporary
input/log files), so any two successful chunks with distinct capture
timestamps receive distinct final names. -/
theorem distinct_timestamps_distinct_chunkNames (t u : Nat) (h : t ≠ u) :
    Bridge.output_filename t ≠ Bridge.output_filename u :=
  fun heq => h (Bridge.output_filename_inj t u heq)

/-- Witness for C8 at timestamps 1000 and 1001. -/
theorem distinct_timestamps_distinct_chunkNames_witness :
    Bridge.output_filename 1000 ≠ Bridge.output_filename 1001 :=
  distinct_timestamps_distinct_chunkNames 1000 1001 (by decide)

/-- Counterexample to **C9** as stated: `process_buffers` has no cooldown
valve.  In a run with three consecutive successful (published) chunks, the
packets that arrive afterwards are not discarded: the fourth tick drains
them and produces a fourth published chunk whose file contains exactly
their payloads (after the cached header `[1]`). -/
theorem scheduler_no_cooldown_counterexample :
    ∃ f1 f2 f3 f4 : ℚ,
      (Bridge.run Bridge.trC9).2
        = [ Bridge.TickOutcome.processed f1 [1, 1, 1] none
              ⟨true, false, false, false⟩ 1,
            Bridge.TickOutcome.processed f2 [1, 2, 2] none
              ⟨true, false, false, false⟩ 2,
            Bridge.TickOutcome.processed f3 [1, 3, 3] none
              ⟨true, false, false, false⟩ 3,
            Bridge.TickOutcome.processed f4 [1, 9, 9] none
              ⟨true, false, false, false⟩ 4 ] := by
  refine ⟨Bridge.computeFps 2 (15 - 0), Bridge.computeFps 2 (115 - 100),
    Bridge.computeFps 2 (215 - 200), Bridge.computeFps 2 (315 - 300), ?_⟩
  simp only [Bridge.trC9, Bridge.run, List.foldl, Bridge.runStep,
    Bridge.videoStep, Bridge.audioStep, Bridge.framePayload, Bridge.schedStep,
    Bridge.processTick, Bridge.initState]
  norm_num [Bridge.validateAndPublish, List.getLast]

/-- C9 (amended): The scheduler has no backpressure valve: whatever the
preceding history — including any number of consecutive successful chunks —
the next tick unconditionally drains both buffers in full and hands exactly
the drained content to the tick body; buffered data is never shed during a
cooldown (no cooldown exists in bridge_server.py 122–270). -/
theorem scheduler_always_drains (tr : List Bridge.Ev) (r : Bridge.MuxResult) :
    (Bridge.run (tr ++ [Bridge.Ev.tick r])).1.video_buffer = []
    ∧ (Bridge.run (tr ++ [Bridge.Ev.tick r])).1.audio_buffer = []
    ∧ (Bridge.run (tr ++ [Bridge.Ev.tick r])).2
        = (Bridge.run tr).2
          ++ [Bridge.processTick (Bridge.run tr).1.chunk_counter
              (Bridge.run tr).1.video_buffer (Bridge.run tr).1.audio_buffer
              (Bridge.run tr).1.video_header r] := by
  have he : Bridge.run (tr ++ [Bridge.Ev.tick r])
      = Bridge.runStep (Bridge.run tr) (Bridge.Ev.tick r) := by
    simp [Bridge.run, List.foldl_append]
  rw [he]
  exact ⟨rfl, rfl, rfl⟩
